import Mathlib

/-!
Shallow embedding of the price-comparison backend (`src/main.py`) and proofs
of the specification claims.

Modelling conventions:
* Python floats are modelled as exact rationals (`ℚ`).  `round(x, n)` is
  modelled as round-half-up on rationals; no claim depends on tie behaviour.
* The random source (`random.uniform`, `random.choice`, `random.sample`) and
  the wall clock (`datetime.now`) are modelled as explicit streams inside a
  `World`, consumed through counters threaded in the state `St`.
  `random.uniform(a, b)` returns `a + u * (b - a)` where `u` is the next
  stream value (uniform draws lie in `[0,1]`); `random.choice(l)` picks
  `l[c % len(l)]` for the next choice-stream value `c`.
* Timestamps are integers (microseconds); `timedelta(days=i)` is
  `i * microsPerDay`.
* The document store handle `db` comes from the `database` module, which is
  not part of the sources.  Modelled from the spec: `db` is a nullable handle
  (`Option DB`); collections support find / insert in insertion order, and
  `create_document` appends a document to a collection.  Store operations
  that the source leaves unhandled can raise; this is modelled by explicit
  boolean fault parameters (`priceFindOk`, `recordOk`) on the functions that
  perform those operations.
* Object ids (`ObjectId`, `insert_one(...).inserted_id`) are modelled as
  naturals drawn from a fresh-id counter in the state.
-/

set_option maxRecDepth 8192

namespace PriceCompare

/-- A time stamp in microseconds since some epoch (models `datetime`). -/
abbrev Time := ℤ

/-- `timedelta(days=1)` in microseconds. -/
def microsPerDay : ℤ := 86400000000

/-- One point of a price history (models the `PricePoint` pydantic model /
history dict entries). -/
structure PricePoint where
  date : Time
  price : ℚ
deriving DecidableEq

/-- A price-entry document, as stored in the `priceentry` collection or
generated ephemerally.  Ephemeral entries carry no `product_id` and no
`created_at` / `updated_at` keys, hence the `Option`s. -/
structure Entry where
  product_id : Option ℕ
  platform : String
  price : ℚ
  currency : String
  url : String
  rating : ℚ
  delivery : String
  last_updated : Time
  history : List PricePoint
  created_at : Option Time
  updated_at : Option Time
deriving DecidableEq

/-- A product document (the dict built by `ensure_product_in_db`; stored
documents additionally carry `_id`, modelled by `id?`). -/
structure ProductDoc where
  id? : Option ℕ
  name : String
  normalized_name : String
  brand : Option String
  category : String
  image : String
  created_at : Time
  updated_at : Time
deriving DecidableEq

/-- A persisted search record (the dict passed to `create_document`). -/
structure SearchRecord where
  query : String
  brand : Option String
  category : Option String
  price_min : Option ℚ
  price_max : Option ℚ
  results_count : ℕ
deriving DecidableEq

/-- Modelled from the spec: the document store exposed by the missing
`database` module, with the three named collections used by `main.py`
(`product`, `priceentry`, `searchrecord`), kept in insertion order. -/
structure DB where
  products : List ProductDoc
  priceentries : List Entry
  searchrecords : List SearchRecord
deriving DecidableEq

/-- The random and clock streams backing `random.*` and `datetime.now`. -/
structure World where
  rng : ℕ → ℚ
  choice : ℕ → ℕ
  clock : ℕ → Time

/-- Mutable state threaded through a request: stream counters, the fresh
object-id counter, and the (optional) store.  `store = none` models the
"no database configured" mode. -/
structure St where
  r : ℕ
  c : ℕ
  t : ℕ
  o : ℕ
  store : Option DB
deriving DecidableEq

/-- The value `random.uniform a b` yields at rng index `i`. -/
def uniformAt (w : World) (i : ℕ) (a b : ℚ) : ℚ :=
  a + w.rng i * (b - a)

/-- `random.uniform(a, b)`: consume one rng draw. -/
def pyUniform (w : World) (a b : ℚ) (s : St) : ℚ × St :=
  (uniformAt w s.r a b, { s with r := s.r + 1 })

/-- `random.choice(l)`: consume one choice draw, pick an element of `l`. -/
def pyChoice {α : Type} (w : World) (l : List α) (dflt : α) (s : St) : α × St :=
  (l.getD (w.choice s.c % l.length) dflt, { s with c := s.c + 1 })

/-- `datetime.now(timezone.utc)`: consume one clock tick. -/
def pyNow (w : World) (s : St) : Time × St :=
  (w.clock s.t, { s with t := s.t + 1 })

/-- A fresh object id (`ObjectId()` / the id assigned by `insert_one`). -/
def freshOid (s : St) : ℕ × St :=
  (s.o, { s with o := s.o + 1 })

/-- `round(x, 2)` on rationals (round-half-up; Python's float ties-to-even
differs only at exact ties, which no claim depends on). -/
def round2 (x : ℚ) : ℚ :=
  (round (x * 100) : ℚ) / 100

/-- `round(x, 1)` on rationals. -/
def round1 (x : ℚ) : ℚ :=
  (round (x * 10) : ℚ) / 10

/-- The value `rand_price base` yields at rng index `i`:
`variance = base * 0.15; round(uniform(base - variance, base + variance), 2)`. -/
def rand_priceAt (w : World) (i : ℕ) (base : ℚ) : ℚ :=
  round2 (uniformAt w i (base - base * (15 / 100)) (base + base * (15 / 100)))

/-- `rand_price(base)` from `main.py`. -/
def rand_price (w : World) (base : ℚ) (s : St) : ℚ × St :=
  (rand_priceAt w s.r base, { s with r := s.r + 1 })

/-- Character-level lowercasing (`str.lower()`, ASCII range). -/
def lowerStr (s : String) : String :=
  String.mk (s.data.map Char.toLower)

/-- `str.replace(" ", "")`: drop all space characters. -/
def stripSpaces (s : String) : String :=
  String.mk (s.data.filter (fun c => c ≠ ' '))

/-- `str.split()` on a character list: whitespace-separated words, empty
fields dropped (the accumulator holds the current word reversed). -/
def wordsAux : List Char → List Char → List String
  | [], acc => if acc.isEmpty then [] else [String.mk acc.reverse]
  | c :: cs, acc =>
    if c.isWhitespace then
      if acc.isEmpty then wordsAux cs [] else String.mk acc.reverse :: wordsAux cs []
    else wordsAux cs (c :: acc)

/-- `normalize(text)` from `main.py`:
`" ".join(text.lower().strip().split())`.  The `.strip()` is subsumed by
`.split()`, which already drops leading/trailing whitespace fields. -/
def normalize (text : String) : String :=
  String.intercalate " " (wordsAux (text.data.map Char.toLower) [])

/-- `p.replace(' ', '').lower()`: the platform name as a URL host segment. -/
def platformSlug (p : String) : String :=
  lowerStr (stripSpaces p)

/-- The fixed platform catalog `PLATFORMS`. -/
def PLATFORMS : List String :=
  ["Amazon", "Flipkart", "Myntra", "AJIO", "Meesho", "Tata Cliq", "Croma"]

/-- The sample image catalog `SAMPLE_IMAGES`. -/
def SAMPLE_IMAGES : List String :=
  ["https://images.unsplash.com/photo-1511707171634-5f897ff02aa9?w=800",
   "https://images.unsplash.com/photo-1517336714731-489689fd1ca8?w=800",
   "https://images.unsplash.com/photo-1512496015851-a90fb38ba796?w=800"]

/-- The delivery strings chosen from in price-entry synthesis. -/
def DELIVERY_OPTIONS : List String :=
  ["2-3 days", "Next day", "Standard (3-5 days)"]

/-- `range(days, -1, -1)`: the list `[days, days-1, ..., 0]`. -/
def countdown : ℕ → List ℕ
  | 0 => [0]
  | n + 1 => (n + 1) :: countdown n

/-- The loop body of `make_history`, iterating over the remaining `i` values
of `range(days, -1, -1)`.  Each iteration draws `rand_price(cur)`, floors at
100.0, reads the clock, and emits the point `now - i days`. -/
def make_historyAux (w : World) : List ℕ → ℚ → St → List PricePoint × St
  | [], _, s => ([], s)
  | i :: rest, cur, s =>
    let pr := rand_price w cur s
    let cur2 := max (100 : ℚ) pr.1
    let tn := pyNow w pr.2
    let tail := make_historyAux w rest cur2 tn.2
    ({ date := tn.1 - (i : ℤ) * microsPerDay, price := cur2 } :: tail.1, tail.2)

/-- `make_history(base, days)` from `main.py`. -/
def make_history (w : World) (base : ℚ) (days : ℕ) (s : St) : List PricePoint × St :=
  make_historyAux w (countdown days) base s

/-- One ephemeral price entry (loop body of the no-store / no-id path of
`find_or_generate_prices`, lines 159-170).  Field evaluation order follows
the dict literal: price, url, rating, delivery, last_updated, history. -/
def mkEphEntry (w : World) (base : ℚ) (p : String) (s : St) : Entry × St :=
  let pr := rand_price w base s
  let rt := pyUniform w (7 / 2 : ℚ) 5 pr.2
  let dl := pyChoice w DELIVERY_OPTIONS "2-3 days" rt.2
  let lu := pyNow w dl.2
  let hist := make_history w pr.1 14 lu.2
  ({ product_id := none, platform := p, price := pr.1, currency := "INR",
     url := "https://" ++ platformSlug p ++ ".com",
     rating := round1 rt.1, delivery := dl.1, last_updated := lu.1,
     history := hist.1, created_at := none, updated_at := none }, hist.2)

/-- The ephemeral generation loop over the platform list. -/
def ephLoop (w : World) (base : ℚ) : List String → St → List Entry × St
  | [], s => ([], s)
  | p :: rest, s =>
    let e := mkEphEntry w base p s
    let tail := ephLoop w base rest e.2
    (e.1 :: tail.1, tail.2)

/-- The full ephemeral path of `find_or_generate_prices` (lines 156-171):
draw a shared base, then one entry per platform. -/
def genEphemeralEntries (w : World) (s : St) : List Entry × St :=
  let b := pyUniform w 499 49999 s
  ephLoop w b.1 PLATFORMS b.2

/-- One seeded price entry (loop body of the seeding loops in
`ensure_product_in_db` lines 133-148 and `find_or_generate_prices` lines
178-193; the two source loops are identical, with `qnorm` the normalized
name interpolated into the URL).  Persisted entries additionally carry
`product_id`, `created_at` and `updated_at` (two extra clock reads). -/
def mkSeedEntry (w : World) (base : ℚ) (pid : ℕ) (qnorm : String) (p : String)
    (s : St) : Entry × St :=
  let pr := rand_price w base s
  let rt := pyUniform w (7 / 2 : ℚ) 5 pr.2
  let dl := pyChoice w DELIVERY_OPTIONS "2-3 days" rt.2
  let lu := pyNow w dl.2
  let hist := make_history w pr.1 14 lu.2
  let ca := pyNow w hist.2
  let ua := pyNow w ca.2
  ({ product_id := some pid, platform := p, price := pr.1, currency := "INR",
     url := "https://" ++ platformSlug p ++ ".com/search?q=" ++ qnorm,
     rating := round1 rt.1, delivery := dl.1, last_updated := lu.1,
     history := hist.1, created_at := some ca.1, updated_at := some ua.1 }, ua.2)

/-- The seeding loop over the platform list. -/
def seedLoop (w : World) (base : ℚ) (pid : ℕ) (qnorm : String) :
    List String → St → List Entry × St
  | [], s => ([], s)
  | p :: rest, s =>
    let e := mkSeedEntry w base pid qnorm p s
    let tail := seedLoop w base pid qnorm rest e.2
    (e.1 :: tail.1, tail.2)

/-- A full seeding pass: draw a shared base, then one entry per platform
(used by `ensure_product_in_db` after the product insert, and by
`find_or_generate_prices` when the persisted set is empty). -/
def seedEntries (w : World) (pid : ℕ) (qnorm : String) (s : St) : List Entry × St :=
  let b := pyUniform w 499 49999 s
  seedLoop w b.1 pid qnorm PLATFORMS b.2

/-- Append seeded entries to the `priceentry` collection
(`db["priceentry"].insert_many(seeded)`). -/
def storeAppendPrices (s : St) (es : List Entry) : St :=
  match s.store with
  | none => s
  | some d => { s with store := some { d with priceentries := d.priceentries ++ es } }

/-- Append a product document to the `product` collection
(`db["product"].insert_one(doc)`). -/
def storeAppendProduct (s : St) (p : ProductDoc) : St :=
  match s.store with
  | none => s
  | some d => { s with store := some { d with products := d.products ++ [p] } }

/-- Python `category or "General"` (empty string is falsy). -/
def pyOr (c : Option String) (dflt : String) : String :=
  match c with
  | none => dflt
  | some x => if x = "" then dflt else x

/-- `ensure_product_in_db(name, brand, category)` from `main.py`. -/
def ensure_product_in_db (w : World) (name : String) (brand : Option String)
    (category : Option String) (s : St) : ProductDoc × St :=
  let norm := normalize name
  let existing : Option ProductDoc :=
    match s.store with
    | some d => d.products.find? (fun p => p.normalized_name == norm)
    | none => none
  match existing with
  | some e => (e, s)
  | none =>
    let img := pyChoice w SAMPLE_IMAGES "" s
    let ca := pyNow w img.2
    let ua := pyNow w ca.2
    let doc : ProductDoc :=
      { id? := none, name := name, normalized_name := norm, brand := brand,
        category := pyOr category "General", image := img.1,
        created_at := ca.1, updated_at := ua.1 }
    match ua.2.store with
    | none => (doc, ua.2)
    | some _ =>
      let pid := freshOid ua.2
      let doc2 := { doc with id? := some pid.1 }
      let s5 := storeAppendProduct pid.2 doc2
      let seeded := seedEntries w pid.1 norm s5
      let s7 := if seeded.1.isEmpty then seeded.2 else storeAppendPrices seeded.2 seeded.1
      (doc2, s7)

/-- `find_or_generate_prices(product_doc)` from `main.py`.  `priceFindOk`
models whether the `db["priceentry"].find(...)` read succeeds; the source
leaves a read failure unhandled, so it propagates as an error. -/
def find_or_generate_prices (w : World) (priceFindOk : Bool) (doc : ProductDoc)
    (s : St) : Except Unit (List Entry) × St :=
  match s.store, doc.id? with
  | none, _ =>
    let out := genEphemeralEntries w s
    (.ok out.1, out.2)
  | some _, none =>
    let out := genEphemeralEntries w s
    (.ok out.1, out.2)
  | some dbv, some pid =>
    if priceFindOk then
      let items := dbv.priceentries.filter (fun e => e.product_id == some pid)
      if items.isEmpty then
        let seeded := seedEntries w pid doc.normalized_name s
        if seeded.1.isEmpty then (.ok items, seeded.2)
        else (.ok seeded.1, storeAppendPrices seeded.2 seeded.1)
      else (.ok items, s)
    else (.error (), s)

/-- A platform price as shaped into the response (the `PlatformPrice`
pydantic model; extra persisted keys are dropped). -/
structure PlatformPrice where
  platform : String
  price : ℚ
  currency : String
  url : String
  rating : ℚ
  delivery : String
  last_updated : Time
  history : List PricePoint
deriving DecidableEq

/-- Project a price-entry document onto the response model
(`PlatformPrice(**p)` at lines 249-252). -/
def toPlatformPrice (e : Entry) : PlatformPrice :=
  { platform := e.platform, price := e.price, currency := e.currency,
    url := e.url, rating := e.rating, delivery := e.delivery,
    last_updated := e.last_updated, history := e.history }

/-- The `ProductResult` response model. -/
structure ProductResult where
  id : ℕ
  name : String
  brand : Option String
  category : String
  image : String
  platforms : List PlatformPrice
deriving DecidableEq

/-- The echoed filters of the search response. -/
structure Filters where
  category : Option String
  brand : Option String
  price_min : Option ℚ
  price_max : Option ℚ
deriving DecidableEq

/-- The `SearchResponse` response model. -/
structure SearchResponse where
  query : String
  results : List ProductResult
  filters : Filters
  generated_at : Time
deriving DecidableEq

/-- The `in_range` closure of `search_products` (lines 234-239). -/
def in_range (price_min price_max : Option ℚ) (v : ℚ) : Bool :=
  match price_min, price_max with
  | some m, some mx => if v < m then false else if v > mx then false else true
  | some m, none => if v < m then false else true
  | none, some mx => if v > mx then false else true
  | none, none => true

/-- `str(product_doc.get("_id", ObjectId()))`: the default `ObjectId()` is
evaluated unconditionally, so one fresh id is always consumed. -/
def getIdOrFresh (doc : ProductDoc) (s : St) : ℕ × St :=
  let fresh := freshOid s
  (doc.id?.getD fresh.1, fresh.2)

/-- Modelled from the spec: `create_document(collection, doc)` from the
missing `database` module appends the document to the named collection;
here specialised to the `searchrecord` collection, the only one the source
uses it for.  `recordOk` models whether the write succeeds; on failure the
store is untouched (the caller swallows the exception). -/
def create_searchrecord (recordOk : Bool) (rec : SearchRecord) (s : St) : St :=
  match s.store with
  | none => s
  | some d =>
    if recordOk then
      { s with store := some { d with searchrecords := d.searchrecords ++ [rec] } }
    else s

/-- `search_products(q, category, brand, price_min, price_max)` from
`main.py`.  A failure of the price-entry read (`priceFindOk = false`)
propagates as an error committed after any earlier writes; a failure of the
search-record write (`recordOk = false`) is swallowed by the
`try/except: pass` around `create_document`. -/
def search_products (w : World) (priceFindOk recordOk : Bool) (q : String)
    (category brand : Option String) (price_min price_max : Option ℚ)
    (s : St) : Except Unit SearchResponse × St :=
  let ens := ensure_product_in_db w q brand category s
  match find_or_generate_prices w priceFindOk ens.1 ens.2 with
  | (.error e, s2) => (.error e, s2)
  | (.ok prices0, s2) =>
    let prices :=
      if price_min.isSome || price_max.isSome then
        prices0.filter (fun p => in_range price_min price_max p.price)
      else prices0
    let rid := getIdOrFresh ens.1 s2
    let result : ProductResult :=
      { id := rid.1, name := ens.1.name, brand := ens.1.brand,
        category := ens.1.category, image := ens.1.image,
        platforms := prices.map toPlatformPrice }
    let gt := pyNow w rid.2
    let response : SearchResponse :=
      { query := q, results := [result],
        filters := { category := category, brand := brand,
                     price_min := price_min, price_max := price_max },
        generated_at := gt.1 }
    let s5 :=
      match gt.2.store with
      | none => gt.2
      | some _ =>
        create_searchrecord recordOk
          { query := q, brand := brand, category := category,
            price_min := price_min, price_max := price_max,
            results_count := result.platforms.length } gt.2
    (.ok response, s5)

/-- The `searchrecord` collection of a state (empty when no store). -/
def srOf (s : St) : List SearchRecord :=
  match s.store with
  | none => []
  | some d => d.searchrecords

/-- A trending platform price (dict at lines 328-334: one price point,
no history, no rating/delivery). -/
structure TrendEntry where
  platform : String
  price : ℚ
  currency : String
  url : String
  last_updated : Time
deriving DecidableEq

/-- A trending deal item (dict at lines 336-343). -/
structure TrendItem where
  name : String
  brand : String
  category : String
  image : String
  platforms : List TrendEntry
  lowest : Option TrendEntry
deriving DecidableEq

/-- The `/api/trending` response shape. -/
structure TrendResponse where
  items : List TrendItem
  generated_at : Time
deriving DecidableEq

/-- The fixed trending name catalog (line 318-321). -/
def TREND_NAMES : List String :=
  ["iPhone 15", "Samsung Galaxy S23", "Sony WH-1000XM5",
   "Nike Air Max", "Dell XPS 13", "MacBook Air M2"]

/-- The fixed trending brand catalog (line 322; "Apple" duplicated to bias). -/
def TREND_BRANDS : List String :=
  ["Apple", "Samsung", "Sony", "Nike", "Dell", "Apple"]

/-- The fixed trending category catalog (line 323). -/
def TREND_CATEGORIES : List String :=
  ["Mobiles", "Headphones", "Shoes", "Laptops"]

/-- `random.sample(l, k)`: `k` distinct positions chosen without
replacement.  Modelled abstractly: each pick selects an index into the
remaining list from the choice stream and removes it.  (CPython's internal
use of the random stream differs; no claim depends on which subset is
drawn.) -/
def pySample (w : World) : ℕ → List String → St → List String × St
  | 0, _, s => ([], s)
  | k + 1, l, s =>
    if l.isEmpty then ([], s)
    else
      let idx := w.choice s.c % l.length
      let x := l.getD idx ""
      let rest := pySample w k (l.eraseIdx idx) { s with c := s.c + 1 }
      (x :: rest.1, rest.2)

/-- `min(platform_prices, key=lambda x: x["price"])` wrapped in the
`if platform_prices else None` guard: first strictly-minimal element. -/
def minByPrice : List TrendEntry → Option TrendEntry
  | [] => none
  | x :: xs => some (xs.foldl (fun acc y => if y.price < acc.price then y else acc) x)

/-- One trending platform price (loop body at lines 326-334). -/
def mkTrendEntry (w : World) (base : ℚ) (nm p : String) (s : St) : TrendEntry × St :=
  let pr := rand_price w base s
  let lu := pyNow w pr.2
  ({ platform := p, price := pr.1, currency := "INR",
     url := "https://" ++ platformSlug p ++ ".com/search?q=" ++ nm,
     last_updated := lu.1 }, lu.2)

/-- The per-item platform loop of `trending_deals`. -/
def trendPlatLoop (w : World) (base : ℚ) (nm : String) :
    List String → St → List TrendEntry × St
  | [], s => ([], s)
  | p :: rest, s =>
    let e := mkTrendEntry w base nm p s
    let tail := trendPlatLoop w base nm rest e.2
    (e.1 :: tail.1, tail.2)

/-- One iteration of the `trending_deals` loop (lines 317-343). -/
def trendItem (w : World) (s : St) : TrendItem × St :=
  let nm := pyChoice w TREND_NAMES "" s
  let br := pyChoice w TREND_BRANDS "" nm.2
  let cat := pyChoice w TREND_CATEGORIES "" br.2
  let base := pyUniform w 999 149999 cat.2
  let plats := pySample w (min 4 PLATFORMS.length) PLATFORMS base.2
  let pps := trendPlatLoop w base.1 nm.1 plats.1 plats.2
  let low := minByPrice pps.1
  let img := pyChoice w SAMPLE_IMAGES "" pps.2
  ({ name := nm.1, brand := br.1, category := cat.1, image := img.1,
     platforms := pps.1, lowest := low }, img.2)

/-- The `for _ in range(limit)` loop of `trending_deals`. -/
def trendLoop (w : World) : ℕ → St → List TrendItem × St
  | 0, s => ([], s)
  | n + 1, s =>
    let it := trendItem w s
    let tail := trendLoop w n it.2
    (it.1 :: tail.1, tail.2)

/-- `trending_deals(limit)` from `main.py`.  `limit` is a plain Python int;
`range(limit)` runs `max limit 0` iterations, modelled by `limit.toNat`. -/
def trending_deals (w : World) (limit : ℤ) (s : St) : TrendResponse × St :=
  let items := trendLoop w limit.toNat s
  let gt := pyNow w items.2
  ({ items := items.1, generated_at := gt.1 }, gt.2)

/-- The non-temporal content of a price entry: platform, price, currency,
rating, delivery and the price sequence of the history.  Used to compare
the ephemeral and seeding generators, whose timestamps are read at
different clock offsets and whose URLs differ. -/
def entryCore (e : Entry) : String × ℚ × String × ℚ × String × List ℚ :=
  (e.platform, e.price, e.currency, e.rating, e.delivery, e.history.map (fun h => h.price))

/-- Concrete world for witnesses: mid-range uniform draws, zero choices,
a clock ticking one microsecond per read. -/
def W0 : World :=
  { rng := fun _ => 1 / 2, choice := fun _ => 0, clock := fun k => (k : ℤ) }

/-- Concrete stored product for witnesses (normalized name `"x"`). -/
def P0 : ProductDoc :=
  { id? := some 0, name := "x", normalized_name := "x", brand := none,
    category := "General", image := "img", created_at := 0, updated_at := 0 }

/-- Concrete persisted price entry for product `P0`. -/
def E0 : Entry :=
  { product_id := some 0, platform := "Amazon", price := 500, currency := "INR",
    url := "https://amazon.com/search?q=x", rating := 4, delivery := "2-3 days",
    last_updated := 0, history := [], created_at := some 0, updated_at := some 0 }

/-- Concrete store holding `P0` with its one price entry. -/
def DB0 : DB :=
  { products := [P0], priceentries := [E0], searchrecords := [] }

/-- Concrete state with the store configured. -/
def S0 : St :=
  { r := 0, c := 0, t := 0, o := 100, store := some DB0 }

/-- Concrete state with no store configured. -/
def S1 : St :=
  { r := 0, c := 0, t := 0, o := 100, store := none }

theorem countdown_length (days : ℕ) : (countdown days).length = days + 1 := by
  induction days with
  | zero => rfl
  | succ n ih => simp [countdown, ih]

theorem countdown_head (days : ℕ) : (countdown days).head? = some days := by
  cases days <;> rfl

theorem countdown_chain (days : ℕ) : List.Chain' (fun a b => b < a) (countdown days) := by
  induction days with
  | zero => simp [countdown]
  | succ n ih =>
    rw [countdown, List.chain'_cons']
    refine ⟨?_, ih⟩
    intro y hy
    rw [countdown_head] at hy
    cases hy
    omega

theorem make_historyAux_length (w : World) :
    ∀ (l : List ℕ) (cur : ℚ) (s : St),
      ((make_historyAux w l cur s).1).length = l.length := by
  intro l
  induction l with
  | nil => intro cur s; rfl
  | cons i rest ih =>
    intro cur s
    simp [make_historyAux, ih]

theorem make_historyAux_head (w : World) (i : ℕ) (rest : List ℕ) (cur : ℚ) (s : St) :
    ((make_historyAux w (i :: rest) cur s).1).head? =
      some { date := w.clock s.t - (i : ℤ) * microsPerDay,
             price := max (100 : ℚ) (rand_priceAt w s.r cur) } := rfl

theorem make_historyAux_prices_ge (w : World) :
    ∀ (l : List ℕ) (cur : ℚ) (s : St),
      ∀ pt ∈ (make_historyAux w l cur s).1, (100 : ℚ) ≤ pt.price := by
  intro l
  induction l with
  | nil => intro cur s pt h; simp [make_historyAux] at h
  | cons i rest ih =>
    intro cur s pt h
    simp only [make_historyAux, List.mem_cons] at h
    rcases h with h | h
    · subst h; exact le_max_left _ _
    · exact ih _ _ pt h

theorem make_historyAux_dates (w : World)
    (hc : ∀ k, w.clock k ≤ w.clock (k + 1)) :
    ∀ (l : List ℕ) (cur : ℚ) (s : St), List.Chain' (fun a b => b < a) l →
      List.Chain' (fun a b : PricePoint => a.date < b.date)
        (make_historyAux w l cur s).1 := by
  intro l
  induction l with
  | nil => intro cur s _; simp [make_historyAux]
  | cons i rest ih =>
    intro cur s hl
    rw [List.chain'_cons'] at hl
    show List.Chain' _ (_ :: (make_historyAux w rest _ _).1)
    rw [List.chain'_cons']
    refine ⟨?_, ih _ _ hl.2⟩
    intro y hy
    cases rest with
    | nil => simp [make_historyAux] at hy
    | cons j rest' =>
      rw [make_historyAux_head] at hy
      cases hy
      have hji : j < i := hl.1 j rfl
      have hclock : w.clock s.t ≤ w.clock (s.t + 1) := hc s.t
      show w.clock s.t - (i : ℤ) * microsPerDay <
        w.clock (s.t + 1) - (j : ℤ) * microsPerDay
      have hij : (j : ℤ) + 1 ≤ (i : ℤ) := by exact_mod_cast hji
      have : ((j : ℤ) + 1) * microsPerDay ≤ (i : ℤ) * microsPerDay := by
        have hd : (0 : ℤ) ≤ microsPerDay := by norm_num [microsPerDay]
        exact mul_le_mul_of_nonneg_right hij hd
      have hd2 : (0 : ℤ) < microsPerDay := by norm_num [microsPerDay]
      nlinarith [hclock, this, hd2]

theorem make_historyAux_jitter_chain (w : World) :
    ∀ (l : List ℕ) (cur : ℚ) (s : St),
      List.Chain' (fun a b : PricePoint =>
        ∃ i, b.price = max (100 : ℚ) (rand_priceAt w i a.price))
        (make_historyAux w l cur s).1 := by
  intro l
  induction l with
  | nil => intro cur s; simp [make_historyAux]
  | cons i rest ih =>
    intro cur s
    show List.Chain' _ (_ :: (make_historyAux w rest _ _).1)
    rw [List.chain'_cons']
    refine ⟨?_, ih _ _⟩
    intro y hy
    cases rest with
    | nil => simp [make_historyAux] at hy
    | cons j rest' =>
      rw [make_historyAux_head] at hy
      cases hy
      exact ⟨(rand_price w cur s).2.r, rfl⟩

/-- C2: for every non-negative `days`, `make_history` returns exactly
`days + 1` points, in strictly increasing date order (oldest first,
assuming the clock never goes backwards between consecutive reads), every
price is ≥ 100.0, and each point's price is obtained by applying the
floored bounded jitter (`max 100 (rand_price ·)`) to the previous point's
price. -/
theorem make_history_spec (w : World) (base : ℚ) (days : ℕ) (s : St)
    (hc : ∀ k, w.clock k ≤ w.clock (k + 1)) :
    ((make_history w base days s).1).length = days + 1 ∧
    List.Pairwise (fun a b : PricePoint => a.date < b.date)
      (make_history w base days s).1 ∧
    (∀ pt ∈ (make_history w base days s).1, (100 : ℚ) ≤ pt.price) ∧
    List.Chain' (fun a b : PricePoint =>
      ∃ i, b.price = max (100 : ℚ) (rand_priceAt w i a.price))
      (make_history w base days s).1 := by
  refine ⟨?_, ?_, ?_, ?_⟩
  · rw [make_history, make_historyAux_length, countdown_length]
  · have h := make_historyAux_dates w hc (countdown days) base s (countdown_chain days)
    haveI : IsTrans PricePoint (fun a b => a.date < b.date) :=
      ⟨fun _ _ _ hab hbc => lt_trans hab hbc⟩
    exact List.chain'_iff_pairwise.mp h
  · exact make_historyAux_prices_ge w (countdown days) base s
  · exact make_historyAux_jitter_chain w (countdown days) base s

/-- Witness for C2 at a concrete world and state. -/
theorem make_history_spec_witness :
    (∀ k, W0.clock k ≤ W0.clock (k + 1)) ∧
    (((make_history W0 5000 2 S1).1).length = 2 + 1 ∧
     List.Pairwise (fun a b : PricePoint => a.date < b.date)
       (make_history W0 5000 2 S1).1 ∧
     (∀ pt ∈ (make_history W0 5000 2 S1).1, (100 : ℚ) ≤ pt.price) ∧
     List.Chain' (fun a b : PricePoint =>
       ∃ i, b.price = max (100 : ℚ) (rand_priceAt W0 i a.price))
       (make_history W0 5000 2 S1).1) := by
  have hc : ∀ k, W0.clock k ≤ W0.clock (k + 1) := by
    intro k
    show (k : ℤ) ≤ ((k + 1 : ℕ) : ℤ)
    exact_mod_cast Nat.le_succ k
  exact ⟨hc, make_history_spec W0 5000 2 S1 hc⟩

theorem make_historyAux_state (w : World) :
    ∀ (l : List ℕ) (cur : ℚ) (s : St),
      (make_historyAux w l cur s).2 =
        { s with r := s.r + l.length, t := s.t + l.length } := by
  intro l
  induction l with
  | nil => intro cur s; rfl
  | cons i rest ih =>
    intro cur s
    simp [make_historyAux, rand_price, pyNow, ih, St.mk.injEq]
    omega

theorem make_history_state (w : World) (b : ℚ) (d : ℕ) (s : St) :
    (make_history w b d s).2 = { s with r := s.r + (d + 1), t := s.t + (d + 1) } := by
  rw [make_history, make_historyAux_state, countdown_length]

theorem mkEphEntry_state (w : World) (base : ℚ) (p : String) (s : St) :
    (mkEphEntry w base p s).2 = { s with r := s.r + 17, c := s.c + 1, t := s.t + 16 } := by
  simp [mkEphEntry, rand_price, pyUniform, pyChoice, pyNow, make_history_state,
    St.mk.injEq]

theorem mkSeedEntry_state (w : World) (base : ℚ) (pid : ℕ) (qn p : String) (s : St) :
    (mkSeedEntry w base pid qn p s).2 =
      { s with r := s.r + 17, c := s.c + 1, t := s.t + 18 } := by
  simp [mkSeedEntry, rand_price, pyUniform, pyChoice, pyNow, make_history_state,
    St.mk.injEq]

theorem ephLoop_state (w : World) (base : ℚ) :
    ∀ (ps : List String) (s : St),
      (ephLoop w base ps s).2 =
        { s with r := s.r + 17 * ps.length, c := s.c + ps.length,
                 t := s.t + 16 * ps.length } := by
  intro ps
  induction ps with
  | nil => intro s; rfl
  | cons p rest ih =>
    intro s
    simp [ephLoop, ih, mkEphEntry_state, St.mk.injEq]
    omega

theorem seedLoop_state (w : World) (base : ℚ) (pid : ℕ) (qn : String) :
    ∀ (ps : List String) (s : St),
      (seedLoop w base pid qn ps s).2 =
        { s with r := s.r + 17 * ps.length, c := s.c + ps.length,
                 t := s.t + 18 * ps.length } := by
  intro ps
  induction ps with
  | nil => intro s; rfl
  | cons p rest ih =>
    intro s
    simp [seedLoop, ih, mkSeedEntry_state, St.mk.injEq]
    omega

theorem genEphemeralEntries_state (w : World) (s : St) :
    (genEphemeralEntries w s).2 =
      { s with r := s.r + 120, c := s.c + 7, t := s.t + 112 } := by
  simp [genEphemeralEntries, pyUniform, ephLoop_state, PLATFORMS, St.mk.injEq]

theorem seedEntries_state (w : World) (pid : ℕ) (qn : String) (s : St) :
    (seedEntries w pid qn s).2 =
      { s with r := s.r + 120, c := s.c + 7, t := s.t + 126 } := by
  simp [seedEntries, pyUniform, seedLoop_state, PLATFORMS, St.mk.injEq]

theorem genEphemeralEntries_store (w : World) (s : St) :
    ((genEphemeralEntries w s).2).store = s.store := by
  rw [genEphemeralEntries_state]

theorem seedEntries_store (w : World) (pid : ℕ) (qn : String) (s : St) :
    ((seedEntries w pid qn s).2).store = s.store := by
  rw [seedEntries_state]

theorem storeAppendPrices_sr (s : St) (es : List Entry) :
    srOf (storeAppendPrices s es) = srOf s := by
  cases hs : s.store <;> simp [storeAppendPrices, srOf, hs]

theorem storeAppendProduct_sr (s : St) (p : ProductDoc) :
    srOf (storeAppendProduct s p) = srOf s := by
  cases hs : s.store <;> simp [storeAppendProduct, srOf, hs]

theorem storeAppendPrices_isSome (s : St) (es : List Entry) :
    ((storeAppendPrices s es).store).isSome = s.store.isSome := by
  cases hs : s.store <;> simp [storeAppendPrices, hs]

theorem storeAppendProduct_isSome (s : St) (p : ProductDoc) :
    ((storeAppendProduct s p).store).isSome = s.store.isSome := by
  cases hs : s.store <;> simp [storeAppendProduct, hs]

/-- C1: with a store configured and a product that has identity, when the
store already holds at least one `PriceEntry` for that product id, the
price resolver returns exactly the persisted set (in stored order) and
leaves the entire state — store and random/clock counters — unchanged;
since this holds for every world, repeated resolves return the same set. -/
theorem find_persisted_stable (doc : ProductDoc) (s : St) (dbv : DB) (pid : ℕ)
    (hs : s.store = some dbv) (hid : doc.id? = some pid)
    (hne : dbv.priceentries.filter (fun e => e.product_id == some pid) ≠ []) :
    ∀ w : World, find_or_generate_prices w true doc s =
      (.ok (dbv.priceentries.filter (fun e => e.product_id == some pid)), s) := by
  intro w
  have hemp : (dbv.priceentries.filter (fun e => e.product_id == some pid)).isEmpty = false := by
    rw [List.isEmpty_eq_false]
    exact hne
  unfold find_or_generate_prices
  rw [hs, hid]
  simp [hemp]

/-- Witness for C1 on the concrete store `DB0`. -/
theorem find_persisted_stable_witness :
    S0.store = some DB0 ∧ P0.id? = some 0 ∧
    DB0.priceentries.filter (fun e => e.product_id == some 0) ≠ [] ∧
    find_or_generate_prices W0 true P0 S0 =
      (.ok (DB0.priceentries.filter (fun e => e.product_id == some 0)), S0) := by
  refine ⟨rfl, rfl, by decide, ?_⟩
  exact find_persisted_stable P0 S0 DB0 0 rfl rfl (by decide) W0

/-- C6: with a store configured, when a product whose normalized name
matches the query already exists, the product resolver returns that record
and leaves the entire state unchanged: no field updates, no product
insert, no price-entry seeding — for every world. -/
theorem ensure_existing_frame (name : String) (brand category : Option String)
    (s : St) (dbv : DB) (P : ProductDoc)
    (hs : s.store = some dbv)
    (hfound : dbv.products.find? (fun p => p.normalized_name == normalize name) = some P) :
    ∀ w : World, ensure_product_in_db w name brand category s = (P, s) := by
  intro w
  simp only [ensure_product_in_db, hs, hfound]

/-- Witness for C6 on the concrete store `DB0`. -/
theorem ensure_existing_frame_witness :
    S0.store = some DB0 ∧
    DB0.products.find? (fun p => p.normalized_name == normalize "x") = some P0 ∧
    ensure_product_in_db W0 "x" none none S0 = (P0, S0) := by
  refine ⟨rfl, by decide, ?_⟩
  exact ensure_existing_frame "x" none none S0 DB0 P0 rfl (by decide) W0

theorem srOf_store_eq (s s' : St) (h : s.store = s'.store) : srOf s = srOf s' := by
  simp [srOf, h]

theorem ensure_sr (w : World) (n : String) (b c : Option String) (s : St) :
    srOf ((ensure_product_in_db w n b c s).2) = srOf s := by
  unfold ensure_product_in_db
  cases hs : s.store with
  | none => simp [hs, srOf, pyNow, pyChoice]
  | some dbv =>
    cases hf : dbv.products.find? (fun p => p.normalized_name == normalize n) with
    | some P => simp [hs, hf]
    | none =>
      simp only [hs, hf, pyNow, pyChoice, freshOid, storeAppendProduct,
        storeAppendPrices, seedEntries_state]
      split <;> simp [srOf, hs]

theorem ensure_isSome (w : World) (n : String) (b c : Option String) (s : St) :
    (((ensure_product_in_db w n b c s).2).store).isSome = s.store.isSome := by
  unfold ensure_product_in_db
  cases hs : s.store with
  | none => simp [hs, pyNow, pyChoice]
  | some dbv =>
    cases hf : dbv.products.find? (fun p => p.normalized_name == normalize n) with
    | some P => simp [hs, hf]
    | none =>
      simp only [hs, hf, pyNow, pyChoice, freshOid, storeAppendProduct,
        storeAppendPrices, seedEntries_state]
      split <;> simp [hs]

theorem find_sr (w : World) (pf : Bool) (doc : ProductDoc) (s : St) :
    srOf ((find_or_generate_prices w pf doc s).2) = srOf s := by
  unfold find_or_generate_prices
  cases hs : s.store with
  | none =>
    cases hid : doc.id? <;> simp [genEphemeralEntries_state, srOf, hs]
  | some dbv =>
    cases hid : doc.id? with
    | none => simp [genEphemeralEntries_state, srOf, hs]
    | some pid =>
      cases pf with
      | false => simp
      | true =>
        simp only [if_true]
        split
        · split
          · simp [seedEntries_state, srOf, hs]
          · simp [storeAppendPrices, seedEntries_state, srOf, hs]
        · rfl

theorem find_isSome (w : World) (pf : Bool) (doc : ProductDoc) (s : St) :
    (((find_or_generate_prices w pf doc s).2).store).isSome = s.store.isSome := by
  unfold find_or_generate_prices
  cases hs : s.store with
  | none =>
    cases hid : doc.id? <;> simp [genEphemeralEntries_state, hs]
  | some dbv =>
    cases hid : doc.id? with
    | none => simp [genEphemeralEntries_state, hs]
    | some pid =>
      cases pf with
      | false => simp [hs]
      | true =>
        simp only [if_true]
        split
        · split
          · simp [seedEntries_state, hs]
          · simp [storeAppendPrices, seedEntries_state, hs]
        · simp [hs]

theorem price_filter_eq (pmin pmax : Option ℚ) (l : List Entry) :
    (if pmin.isSome || pmax.isSome then
        l.filter (fun p => in_range pmin pmax p.price)
      else l) =
    l.filter (fun e =>
      pmin.all (fun m => decide (m ≤ e.price)) &&
      pmax.all (fun mx => decide (e.price ≤ mx))) := by
  cases pmin with
  | none =>
    cases pmax with
    | none => simp
    | some mx =>
      simp only [Option.isSome_some, Bool.or_true, if_pos rfl, Option.all_some,
        Option.all_none, Bool.true_and]
      refine List.filter_congr ?_
      intro e _
      simp only [in_range]
      rcases le_or_lt e.price mx with h | h
      · simp [not_lt.mpr h, h]
      · simp [h, not_le.mpr h]
  | some m =>
    cases pmax with
    | none =>
      simp only [Option.isSome_some, Bool.true_or, if_pos rfl, Option.all_some,
        Option.all_none, Bool.and_true]
      refine List.filter_congr ?_
      intro e _
      simp only [in_range]
      rcases lt_or_le e.price m with h | h
      · simp [h, not_le.mpr h]
      · simp [not_lt.mpr h, h]
    | some mx =>
      simp only [Option.isSome_some, Bool.true_or, if_pos rfl, Option.all_some]
      refine List.filter_congr ?_
      intro e _
      simp only [in_range]
      rcases lt_or_le e.price m with h1 | h1
      · simp [h1, not_le.mpr h1]
      · rcases le_or_lt e.price mx with h2 | h2
        · simp [not_lt.mpr h1, h1, h2, not_lt.mpr h2]
        · simp [not_lt.mpr h1, h1, h2, not_le.mpr h2]

/-- C3: whenever product and price resolution succeed, the search response
holds exactly one result; its platform list is exactly the resolved entries
whose price lies within the inclusive `price_min`/`price_max` bounds (an
absent bound imposes no constraint), and the product metadata is returned
unconditionally — even when no entry qualifies. -/
theorem search_filter_exact (w : World) (rOk : Bool) (q : String)
    (cat br : Option String) (pmin pmax : Option ℚ) (s : St)
    (doc : ProductDoc) (s1 : St) (prices : List Entry) (s2 : St)
    (hens : ensure_product_in_db w q br cat s = (doc, s1))
    (hfind : find_or_generate_prices w true doc s1 = (.ok prices, s2)) :
    ∃ resp s9, search_products w true rOk q cat br pmin pmax s = (.ok resp, s9) ∧
      ∃ pr : ProductResult,
        resp.results = [pr] ∧
        pr.platforms = (prices.filter (fun e =>
            pmin.all (fun m => decide (m ≤ e.price)) &&
            pmax.all (fun mx => decide (e.price ≤ mx)))).map toPlatformPrice ∧
        pr.id = doc.id?.getD s2.o ∧ pr.name = doc.name ∧ pr.brand = doc.brand ∧
        pr.category = doc.category ∧ pr.image = doc.image := by
  unfold search_products
  rw [hens]
  simp only []
  rw [hfind]
  refine ⟨_, _, rfl, _, rfl, ?_, rfl, rfl, rfl, rfl, rfl⟩
  rw [price_filter_eq]

/-- Witness for C3 on the concrete store `DB0` with bounds `[1, 2]`. -/
theorem search_filter_exact_witness :
    ensure_product_in_db W0 "x" none none S0 = (P0, S0) ∧
    find_or_generate_prices W0 true P0 S0 = (.ok [E0], S0) ∧
    (∃ resp s9, search_products W0 true true "x" none none (some 1) (some 2) S0 =
        (.ok resp, s9) ∧
      ∃ pr : ProductResult,
        resp.results = [pr] ∧
        pr.platforms = ([E0].filter (fun e =>
            (some (1 : ℚ)).all (fun m => decide (m ≤ e.price)) &&
            (some (2 : ℚ)).all (fun mx => decide (e.price ≤ mx)))).map toPlatformPrice ∧
        pr.id = P0.id?.getD S0.o ∧ pr.name = P0.name ∧ pr.brand = P0.brand ∧
        pr.category = P0.category ∧ pr.image = P0.image) := by
  refine ⟨by decide, rfl, ?_⟩
  exact search_filter_exact W0 true "x" none none (some 1) (some 2) S0 P0 S0 [E0] S0
    (by decide) rfl

/-- C7: a failing search-record write is swallowed: the value returned by
the search endpoint (status and body) is identical to the one returned when
the write succeeds, for every input and state. -/
theorem searchrecord_failure_transparent (w : World) (pf : Bool) (q : String)
    (cat br : Option String) (pmin pmax : Option ℚ) (s : St) :
    (search_products w pf false q cat br pmin pmax s).1 =
    (search_products w pf true q cat br pmin pmax s).1 := by
  simp only [search_products]
  rcases hf : find_or_generate_prices w pf (ensure_product_in_db w q br cat s).1
      (ensure_product_in_db w q br cat s).2 with ⟨ex, s2⟩
  cases ex <;> simp [hf]

theorem ensure_id_some (w : World) (n : String) (b c : Option String) (s : St)
    (dbv : DB) (hs : s.store = some dbv)
    (hwf : ∀ p ∈ dbv.products, (p.id?).isSome = true) :
    (((ensure_product_in_db w n b c s).1).id?).isSome = true := by
  unfold ensure_product_in_db
  cases hf : dbv.products.find? (fun p => p.normalized_name == normalize n) with
  | some P =>
    simp only [hs, hf]
    exact hwf P (List.mem_of_find?_eq_some hf)
  | none =>
    simp only [hs, hf, pyNow, pyChoice, freshOid]
    rfl

theorem find_ok (w : World) (doc : ProductDoc) (s : St) :
    ∃ out s2, find_or_generate_prices w true doc s = (.ok out, s2) := by
  unfold find_or_generate_prices
  cases hs : s.store with
  | none => exact ⟨_, _, rfl⟩
  | some dbv =>
    cases hid : doc.id? with
    | none => exact ⟨_, _, rfl⟩
    | some pid =>
      simp only [if_true]
      split
      · split
        · exact ⟨_, _, rfl⟩
        · exact ⟨_, _, rfl⟩
      · exact ⟨_, _, rfl⟩

theorem find_err (w : World) (doc : ProductDoc) (s : St) (dbv : DB) (pid : ℕ)
    (hs : s.store = some dbv) (hid : doc.id? = some pid) :
    find_or_generate_prices w false doc s = (.error (), s) := by
  unfold find_or_generate_prices
  rw [hs, hid]
  simp

/-- C4 (amended): with a store configured (and well-formed stored products),
a successful search appends exactly one `SearchRecord`; a failing record
write leaves the log unchanged without failing the search (best-effort);
but when price resolution fails, the request fails and no record is
created — record creation is not independent of resolution failure. -/
theorem searchrecord_per_call (w : World) (q : String) (cat br : Option String)
    (pmin pmax : Option ℚ) (s : St) (dbv : DB)
    (hs : s.store = some dbv)
    (hwf : ∀ p ∈ dbv.products, (p.id?).isSome = true) :
    (∃ resp, (search_products w true true q cat br pmin pmax s).1 = .ok resp) ∧
    (∃ rec, srOf (search_products w true true q cat br pmin pmax s).2 =
      dbv.searchrecords ++ [rec]) ∧
    (srOf (search_products w true false q cat br pmin pmax s).2 = dbv.searchrecords) ∧
    ((search_products w false true q cat br pmin pmax s).1 = .error ()) ∧
    (srOf (search_products w false true q cat br pmin pmax s).2 = dbv.searchrecords) := by
  obtain ⟨doc, s1, hens⟩ : ∃ doc s1, ensure_product_in_db w q br cat s = (doc, s1) :=
    ⟨_, _, rfl⟩
  obtain ⟨out, s2, hfind⟩ := find_ok w doc s1
  have hsr1 : srOf s1 = dbv.searchrecords := by
    have h := ensure_sr w q br cat s
    rw [hens] at h
    rw [h]
    simp [srOf, hs]
  have hsome1 : (s1.store).isSome = true := by
    have h := ensure_isSome w q br cat s
    rw [hens] at h
    rw [h, hs]
    rfl
  have hsr2 : srOf s2 = dbv.searchrecords := by
    have h := find_sr w true doc s1
    rw [hfind] at h
    rw [h, hsr1]
  have hsome2 : (s2.store).isSome = true := by
    have h := find_isSome w true doc s1
    rw [hfind] at h
    rw [h, hsome1]
  obtain ⟨dbv2, hdb2⟩ := Option.isSome_iff_exists.mp hsome2
  have hdbsr : dbv2.searchrecords = dbv.searchrecords := by
    have := hsr2
    rw [srOf, hdb2] at this
    exact this
  refine ⟨?_, ?_, ?_, ?_, ?_⟩
  · simp only [search_products, hens, hfind]
    exact ⟨_, rfl⟩
  · simp only [search_products, hens, hfind]
    simp [getIdOrFresh, freshOid, pyNow, create_searchrecord, srOf, hdb2, hdbsr]
  · simp only [search_products, hens, hfind]
    simp [getIdOrFresh, freshOid, pyNow, create_searchrecord, srOf, hdb2, hdbsr]
  · have hid : (doc.id?).isSome = true := by
      have h := ensure_id_some w q br cat s dbv hs hwf
      rw [hens] at h
      exact h
    obtain ⟨pid, hpid⟩ := Option.isSome_iff_exists.mp hid
    obtain ⟨dbv1, hdb1⟩ := Option.isSome_iff_exists.mp hsome1
    have herr := find_err w doc s1 dbv1 pid hdb1 hpid
    simp only [search_products, hens, herr]
  · have hid : (doc.id?).isSome = true := by
      have h := ensure_id_some w q br cat s dbv hs hwf
      rw [hens] at h
      exact h
    obtain ⟨pid, hpid⟩ := Option.isSome_iff_exists.mp hid
    obtain ⟨dbv1, hdb1⟩ := Option.isSome_iff_exists.mp hsome1
    have herr := find_err w doc s1 dbv1 pid hdb1 hpid
    simp only [search_products, hens, herr]
    exact hsr1

/-- Witness for the amended C4 on the concrete store `DB0`. -/
theorem searchrecord_per_call_witness :
    S0.store = some DB0 ∧ (∀ p ∈ DB0.products, (p.id?).isSome = true) ∧
    ((∃ resp, (search_products W0 true true "x" none none none none S0).1 = .ok resp) ∧
     (∃ rec, srOf (search_products W0 true true "x" none none none none S0).2 =
       DB0.searchrecords ++ [rec]) ∧
     (srOf (search_products W0 true false "x" none none none none S0).2 =
       DB0.searchrecords) ∧
     ((search_products W0 false true "x" none none none none S0).1 = .error ()) ∧
     (srOf (search_products W0 false true "x" none none none none S0).2 =
       DB0.searchrecords)) :=
  ⟨rfl, by decide,
    searchrecord_per_call W0 "x" none none none none S0 DB0 rfl (by decide)⟩

/-- C4 counterexample: at a concrete input with the store configured, a
price-resolution failure fails the request and no `SearchRecord` is
created, refuting "a record is created even when resolution fails". -/
theorem searchrecord_not_created_on_failure :
    (search_products W0 false true "x" none none none none S0).1 = .error () ∧
    srOf (search_products W0 false true "x" none none none none S0).2 = [] := by
  constructor <;> rfl

theorem mkEphEntry_platform (w : World) (base : ℚ) (p : String) (s : St) :
    (mkEphEntry w base p s).1.platform = p := rfl

theorem mkEphEntry_price (w : World) (base : ℚ) (p : String) (s : St) :
    (mkEphEntry w base p s).1.price = rand_priceAt w s.r base := rfl

theorem mkEphEntry_currency (w : World) (base : ℚ) (p : String) (s : St) :
    (mkEphEntry w base p s).1.currency = "INR" := rfl

theorem mkEphEntry_url (w : World) (base : ℚ) (p : String) (s : St) :
    (mkEphEntry w base p s).1.url = "https://" ++ platformSlug p ++ ".com" := rfl

theorem mkEphEntry_pid (w : World) (base : ℚ) (p : String) (s : St) :
    (mkEphEntry w base p s).1.product_id = none := rfl

theorem mkSeedEntry_platform (w : World) (base : ℚ) (pid : ℕ) (qn p : String) (s : St) :
    (mkSeedEntry w base pid qn p s).1.platform = p := rfl

theorem mkSeedEntry_price (w : World) (base : ℚ) (pid : ℕ) (qn p : String) (s : St) :
    (mkSeedEntry w base pid qn p s).1.price = rand_priceAt w s.r base := rfl

theorem mkSeedEntry_currency (w : World) (base : ℚ) (pid : ℕ) (qn p : String) (s : St) :
    (mkSeedEntry w base pid qn p s).1.currency = "INR" := rfl

theorem mkSeedEntry_url (w : World) (base : ℚ) (pid : ℕ) (qn p : String) (s : St) :
    (mkSeedEntry w base pid qn p s).1.url =
      "https://" ++ platformSlug p ++ ".com/search?q=" ++ qn := rfl

theorem mkSeedEntry_pid (w : World) (base : ℚ) (pid : ℕ) (qn p : String) (s : St) :
    (mkSeedEntry w base pid qn p s).1.product_id = some pid := rfl

theorem ephLoop_platforms (w : World) (base : ℚ) :
    ∀ (ps : List String) (s : St),
      ((ephLoop w base ps s).1).map (fun e => e.platform) = ps := by
  intro ps
  induction ps with
  | nil => intro s; rfl
  | cons p rest ih => intro s; simp [ephLoop, mkEphEntry_platform, ih]

theorem ephLoop_url (w : World) (base : ℚ) :
    ∀ (ps : List String) (s : St),
      ((ephLoop w base ps s).1).map (fun e => e.url) =
        ps.map (fun p => "https://" ++ platformSlug p ++ ".com") := by
  intro ps
  induction ps with
  | nil => intro s; rfl
  | cons p rest ih => intro s; simp [ephLoop, mkEphEntry_url, ih]

theorem ephLoop_pid (w : World) (base : ℚ) :
    ∀ (ps : List String) (s : St),
      ((ephLoop w base ps s).1).map (fun e => e.product_id) =
        ps.map (fun _ => (none : Option ℕ)) := by
  intro ps
  induction ps with
  | nil => intro s; rfl
  | cons p rest ih => intro s; simp [ephLoop, mkEphEntry_pid, ih]

theorem ephLoop_currency_mem (w : World) (base : ℚ) :
    ∀ (ps : List String) (s : St),
      ∀ e ∈ (ephLoop w base ps s).1, e.currency = "INR" := by
  intro ps
  induction ps with
  | nil => intro s e he; simp [ephLoop] at he
  | cons p rest ih =>
    intro s e he
    simp only [ephLoop, List.mem_cons] at he
    rcases he with he | he
    · subst he; exact mkEphEntry_currency w base p s
    · exact ih _ e he

theorem ephLoop_price_mem (w : World) (base : ℚ) :
    ∀ (ps : List String) (s : St),
      ∀ e ∈ (ephLoop w base ps s).1, ∃ i, e.price = rand_priceAt w i base := by
  intro ps
  induction ps with
  | nil => intro s e he; simp [ephLoop] at he
  | cons p rest ih =>
    intro s e he
    simp only [ephLoop, List.mem_cons] at he
    rcases he with he | he
    · exact ⟨s.r, by rw [he, mkEphEntry_price]⟩
    · exact ih _ e he

theorem seedLoop_platforms (w : World) (base : ℚ) (pid : ℕ) (qn : String) :
    ∀ (ps : List String) (s : St),
      ((seedLoop w base pid qn ps s).1).map (fun e => e.platform) = ps := by
  intro ps
  induction ps with
  | nil => intro s; rfl
  | cons p rest ih => intro s; simp [seedLoop, mkSeedEntry_platform, ih]

theorem seedLoop_url (w : World) (base : ℚ) (pid : ℕ) (qn : String) :
    ∀ (ps : List String) (s : St),
      ((seedLoop w base pid qn ps s).1).map (fun e => e.url) =
        ps.map (fun p => "https://" ++ platformSlug p ++ ".com/search?q=" ++ qn) := by
  intro ps
  induction ps with
  | nil => intro s; rfl
  | cons p rest ih => intro s; simp [seedLoop, mkSeedEntry_url, ih]

theorem seedLoop_pid (w : World) (base : ℚ) (pid : ℕ) (qn : String) :
    ∀ (ps : List String) (s : St),
      ((seedLoop w base pid qn ps s).1).map (fun e => e.product_id) =
        ps.map (fun _ => (some pid : Option ℕ)) := by
  intro ps
  induction ps with
  | nil => intro s; rfl
  | cons p rest ih => intro s; simp [seedLoop, mkSeedEntry_pid, ih]

theorem seedLoop_currency_mem (w : World) (base : ℚ) (pid : ℕ) (qn : String) :
    ∀ (ps : List String) (s : St),
      ∀ e ∈ (seedLoop w base pid qn ps s).1, e.currency = "INR" := by
  intro ps
  induction ps with
  | nil => intro s e he; simp [seedLoop] at he
  | cons p rest ih =>
    intro s e he
    simp only [seedLoop, List.mem_cons] at he
    rcases he with he | he
    · subst he; exact mkSeedEntry_currency w base pid qn p s
    · exact ih _ e he

theorem seedLoop_price_mem (w : World) (base : ℚ) (pid : ℕ) (qn : String) :
    ∀ (ps : List String) (s : St),
      ∀ e ∈ (seedLoop w base pid qn ps s).1, ∃ i, e.price = rand_priceAt w i base := by
  intro ps
  induction ps with
  | nil => intro s e he; simp [seedLoop] at he
  | cons p rest ih =>
    intro s e he
    simp only [seedLoop, List.mem_cons] at he
    rcases he with he | he
    · exact ⟨s.r, by rw [he, mkSeedEntry_price]⟩
    · exact ih _ e he

theorem seedLoop_length (w : World) (base : ℚ) (pid : ℕ) (qn : String)
    (ps : List String) (s : St) :
    ((seedLoop w base pid qn ps s).1).length = ps.length := by
  have h := congrArg List.length (seedLoop_platforms w base pid qn ps s)
  simpa using h

theorem genEph_eq (w : World) (s : St) :
    genEphemeralEntries w s =
      ephLoop w (pyUniform w 499 49999 s).1 PLATFORMS (pyUniform w 499 49999 s).2 := rfl

theorem seedEntries_eq (w : World) (pid : ℕ) (qn : String) (s : St) :
    seedEntries w pid qn s =
      seedLoop w (pyUniform w 499 49999 s).1 pid qn PLATFORMS (pyUniform w 499 49999 s).2 := rfl

theorem pyUniform_fst (w : World) (a b : ℚ) (s : St) :
    (pyUniform w a b s).1 = uniformAt w s.r a b := rfl

theorem genEph_platforms (w : World) (s : St) :
    ((genEphemeralEntries w s).1).map (fun e => e.platform) = PLATFORMS := by
  rw [genEph_eq]
  exact ephLoop_platforms w _ PLATFORMS _

theorem genEph_currency_mem (w : World) (s : St) :
    ∀ e ∈ (genEphemeralEntries w s).1, e.currency = "INR" := by
  rw [genEph_eq]
  exact ephLoop_currency_mem w _ PLATFORMS _

theorem genEph_price_mem (w : World) (s : St) :
    ∀ e ∈ (genEphemeralEntries w s).1,
      ∃ i, e.price = rand_priceAt w i (uniformAt w s.r 499 49999) := by
  rw [genEph_eq, ← pyUniform_fst w 499 49999 s]
  exact ephLoop_price_mem w _ PLATFORMS _

theorem seedEntries_platforms (w : World) (pid : ℕ) (qn : String) (s : St) :
    ((seedEntries w pid qn s).1).map (fun e => e.platform) = PLATFORMS := by
  rw [seedEntries_eq]
  exact seedLoop_platforms w _ pid qn PLATFORMS _

theorem seedEntries_currency_mem (w : World) (pid : ℕ) (qn : String) (s : St) :
    ∀ e ∈ (seedEntries w pid qn s).1, e.currency = "INR" := by
  rw [seedEntries_eq]
  exact seedLoop_currency_mem w _ pid qn PLATFORMS _

theorem seedEntries_price_mem (w : World) (pid : ℕ) (qn : String) (s : St) :
    ∀ e ∈ (seedEntries w pid qn s).1,
      ∃ i, e.price = rand_priceAt w i (uniformAt w s.r 499 49999) := by
  rw [seedEntries_eq, ← pyUniform_fst w 499 49999 s]
  exact seedLoop_price_mem w _ pid qn PLATFORMS _

/-- C9: whenever the price resolver generates entries — on the ephemeral
path (no store, or no product identity) or when seeding an empty persisted
set — it returns exactly one entry per platform of the fixed platform list,
in that order (seven entries), all with currency "INR", and every entry's
price is a bounded jitter drawn from the one shared base price drawn first. -/
theorem generated_entries_spec (w : World) (doc : ProductDoc) (s : St)
    (out : List Entry) (s2 : St)
    (hgen : s.store = none ∨ doc.id? = none ∨
      (∃ dbv pid, s.store = some dbv ∧ doc.id? = some pid ∧
        dbv.priceentries.filter (fun e => e.product_id == some pid) = []))
    (hfind : find_or_generate_prices w true doc s = (.ok out, s2)) :
    out.map (fun e => e.platform) = PLATFORMS ∧
    PLATFORMS.length = 7 ∧
    (∀ e ∈ out, e.currency = "INR" ∧
      ∃ i, e.price = rand_priceAt w i (uniformAt w s.r 499 49999)) := by
  have hout : out = (genEphemeralEntries w s).1 ∨
      out = (seedEntries w (doc.id?.getD 0) doc.normalized_name s).1 := by
    rcases hgen with h | h | ⟨dbv, pid, hs, hid, hfil⟩
    · left
      have h2 : find_or_generate_prices w true doc s =
          (.ok (genEphemeralEntries w s).1, (genEphemeralEntries w s).2) := by
        unfold find_or_generate_prices
        rw [h]
      rw [h2, Prod.mk.injEq] at hfind
      exact (Except.ok.inj hfind.1).symm
    · left
      cases hs : s.store with
      | none =>
        have h2 : find_or_generate_prices w true doc s =
            (.ok (genEphemeralEntries w s).1, (genEphemeralEntries w s).2) := by
          unfold find_or_generate_prices
          rw [hs]
        rw [h2, Prod.mk.injEq] at hfind
        exact (Except.ok.inj hfind.1).symm
      | some dbv =>
        have h2 : find_or_generate_prices w true doc s =
            (.ok (genEphemeralEntries w s).1, (genEphemeralEntries w s).2) := by
          unfold find_or_generate_prices
          rw [hs, h]
        rw [h2, Prod.mk.injEq] at hfind
        exact (Except.ok.inj hfind.1).symm
    · right
      have hne : ((seedEntries w pid doc.normalized_name s).1).isEmpty = false := by
        have hlen : ((seedEntries w pid doc.normalized_name s).1).length = 7 := by
          rw [seedEntries_eq]
          exact seedLoop_length w _ pid doc.normalized_name PLATFORMS _
        rw [List.isEmpty_eq_false]
        intro hnil
        rw [hnil] at hlen
        simp at hlen
      have h2 : find_or_generate_prices w true doc s =
          (.ok (seedEntries w pid doc.normalized_name s).1,
            storeAppendPrices (seedEntries w pid doc.normalized_name s).2
              (seedEntries w pid doc.normalized_name s).1) := by
        unfold find_or_generate_prices
        rw [hs, hid]
        simp [hfil, hne]
      rw [h2, Prod.mk.injEq] at hfind
      have h3 : (seedEntries w pid doc.normalized_name s).1 = out :=
        Except.ok.inj hfind.1
      rw [hid]
      simpa using h3.symm
  rcases hout with hout | hout <;> rw [hout]
  · exact ⟨genEph_platforms w s, rfl,
      fun e he => ⟨genEph_currency_mem w s e he, genEph_price_mem w s e he⟩⟩
  · exact ⟨seedEntries_platforms w _ _ s, rfl,
      fun e he => ⟨seedEntries_currency_mem w _ _ s e he,
        seedEntries_price_mem w _ _ s e he⟩⟩

/-- Witness for C9 on the ephemeral path with no store configured. -/
theorem generated_entries_spec_witness :
    (S1.store = none ∨ P0.id? = none ∨
      (∃ dbv pid, S1.store = some dbv ∧ P0.id? = some pid ∧
        dbv.priceentries.filter (fun e => e.product_id == some pid) = [])) ∧
    find_or_generate_prices W0 true P0 S1 =
      (.ok (genEphemeralEntries W0 S1).1, (genEphemeralEntries W0 S1).2) ∧
    (((genEphemeralEntries W0 S1).1).map (fun e => e.platform) = PLATFORMS ∧
     PLATFORMS.length = 7 ∧
     (∀ e ∈ (genEphemeralEntries W0 S1).1, e.currency = "INR" ∧
       ∃ i, e.price = rand_priceAt W0 i (uniformAt W0 S1.r 499 49999))) :=
  ⟨Or.inl rfl, rfl,
    generated_entries_spec W0 P0 S1 (genEphemeralEntries W0 S1).1
      (genEphemeralEntries W0 S1).2 (Or.inl rfl) rfl⟩

theorem make_historyAux_prices_ext (w : World) :
    ∀ (l : List ℕ) (cur : ℚ) (s s' : St), s.r = s'.r →
      ((make_historyAux w l cur s).1).map (fun h => h.price) =
      ((make_historyAux w l cur s').1).map (fun h => h.price) := by
  intro l
  induction l with
  | nil => intro cur s s' _; rfl
  | cons i rest ih =>
    intro cur s s' hr
    simp only [make_historyAux, rand_price, pyNow, List.map_cons]
    rw [hr]
    exact congrArg _ (ih _ _ _ (by simp [hr]))

theorem mkEphEntry_rating (w : World) (base : ℚ) (p : String) (s : St) :
    (mkEphEntry w base p s).1.rating = round1 (uniformAt w (s.r + 1) (7 / 2 : ℚ) 5) := rfl

theorem mkSeedEntry_rating (w : World) (base : ℚ) (pid : ℕ) (qn p : String) (s : St) :
    (mkSeedEntry w base pid qn p s).1.rating =
      round1 (uniformAt w (s.r + 1) (7 / 2 : ℚ) 5) := rfl

theorem mkEphEntry_delivery (w : World) (base : ℚ) (p : String) (s : St) :
    (mkEphEntry w base p s).1.delivery =
      DELIVERY_OPTIONS.getD (w.choice s.c % DELIVERY_OPTIONS.length) "2-3 days" := rfl

theorem mkSeedEntry_delivery (w : World) (base : ℚ) (pid : ℕ) (qn p : String) (s : St) :
    (mkSeedEntry w base pid qn p s).1.delivery =
      DELIVERY_OPTIONS.getD (w.choice s.c % DELIVERY_OPTIONS.length) "2-3 days" := rfl

theorem mkEphEntry_history (w : World) (base : ℚ) (p : String) (s : St) :
    (mkEphEntry w base p s).1.history =
      (make_history w (rand_price w base s).1 14
        (pyNow w (pyChoice w DELIVERY_OPTIONS "2-3 days"
          (pyUniform w (7 / 2 : ℚ) 5 (rand_price w base s).2).2).2).2).1 := rfl

theorem mkSeedEntry_history (w : World) (base : ℚ) (pid : ℕ) (qn p : String) (s : St) :
    (mkSeedEntry w base pid qn p s).1.history =
      (make_history w (rand_price w base s).1 14
        (pyNow w (pyChoice w DELIVERY_OPTIONS "2-3 days"
          (pyUniform w (7 / 2 : ℚ) 5 (rand_price w base s).2).2).2).2).1 := rfl

theorem mkEntry_core_match (w : World) (base : ℚ) (pid : ℕ) (qn p : String) :
    ∀ (s s' : St), s.r = s'.r → s.c = s'.c →
      entryCore (mkEphEntry w base p s).1 = entryCore (mkSeedEntry w base pid qn p s').1 := by
  intro s s' hr hc
  have h6 : ((mkEphEntry w base p s).1.history).map (fun h => h.price) =
      ((mkSeedEntry w base pid qn p s').1.history).map (fun h => h.price) := by
    rw [mkEphEntry_history, mkSeedEntry_history, make_history, make_history]
    have hcur : (rand_price w base s).1 = (rand_price w base s').1 := by
      simp [rand_price, hr]
    rw [hcur]
    exact make_historyAux_prices_ext w _ _ _ _
      (by simp [rand_price, pyUniform, pyChoice, pyNow, hr])
  unfold entryCore
  simp only [Prod.mk.injEq]
  refine ⟨?_, ?_, ?_, ?_, ?_, h6⟩
  · rw [mkEphEntry_platform, mkSeedEntry_platform]
  · rw [mkEphEntry_price, mkSeedEntry_price, hr]
  · rw [mkEphEntry_currency, mkSeedEntry_currency]
  · rw [mkEphEntry_rating, mkSeedEntry_rating, hr]
  · rw [mkEphEntry_delivery, mkSeedEntry_delivery, hc]

theorem loop_core_match (w : World) (base : ℚ) (pid : ℕ) (qn : String) :
    ∀ (ps : List String) (s s' : St), s.r = s'.r → s.c = s'.c →
      ((ephLoop w base ps s).1).map entryCore =
      ((seedLoop w base pid qn ps s').1).map entryCore := by
  intro ps
  induction ps with
  | nil => intro s s' _ _; rfl
  | cons p rest ih =>
    intro s s' hr hc
    simp only [ephLoop, seedLoop, List.map_cons]
    refine congrArg₂ _ (mkEntry_core_match w base pid qn p s s' hr hc) ?_
    refine ih _ _ ?_ ?_
    · rw [mkEphEntry_state, mkSeedEntry_state]
      simp [hr]
    · rw [mkEphEntry_state, mkSeedEntry_state]
      simp [hc]

/-- C5 (amended): from the same state, the ephemeral generation path and the
seeding loop run the same algorithm for everything except the URL and the
persistence-related fields: per platform they produce identical price,
currency, rating, delivery and history price sequence (from the same shared
base draw); but the ephemeral URL is just the platform domain while the
seeded URL appends `/search?q=<normalized name>`, and only seeded entries
carry a product id (timestamps are read at call time, and nothing is
persisted on the ephemeral path). -/
theorem eph_seed_same_algorithm (w : World) (pid : ℕ) (qn : String) (s : St) :
    ((genEphemeralEntries w s).1).map entryCore =
      ((seedEntries w pid qn s).1).map entryCore ∧
    ((genEphemeralEntries w s).1).map (fun e => e.url) =
      PLATFORMS.map (fun p => "https://" ++ platformSlug p ++ ".com") ∧
    ((seedEntries w pid qn s).1).map (fun e => e.url) =
      PLATFORMS.map (fun p => "https://" ++ platformSlug p ++ ".com/search?q=" ++ qn) ∧
    ((genEphemeralEntries w s).1).map (fun e => e.product_id) =
      PLATFORMS.map (fun _ => (none : Option ℕ)) ∧
    ((seedEntries w pid qn s).1).map (fun e => e.product_id) =
      PLATFORMS.map (fun _ => (some pid : Option ℕ)) := by
  refine ⟨?_, ?_, ?_, ?_, ?_⟩
  · rw [genEph_eq, seedEntries_eq]
    exact loop_core_match w _ pid qn PLATFORMS _ _ rfl rfl
  · rw [genEph_eq]
    exact ephLoop_url w _ PLATFORMS _
  · rw [seedEntries_eq]
    exact seedLoop_url w _ pid qn PLATFORMS _
  · rw [genEph_eq]
    exact ephLoop_pid w _ PLATFORMS _
  · rw [seedEntries_eq]
    exact seedLoop_pid w _ pid qn PLATFORMS _

/-- C5 counterexample: at a concrete input the first generated entry's URL
differs between the ephemeral path (platform domain only) and the seeding
path (domain plus `/search?q=<normalized name>`), refuting "same URL
construction". -/
theorem eph_seed_url_differ :
    ¬ (((genEphemeralEntries W0 S1).1.headD E0).url =
       ((seedEntries W0 0 "x" S1).1.headD E0).url) := by
  decide

/-- C10: on a successful search with a configured store, the persisted
search record's `results_count` equals the number of platform entries left
after price-range filtering, not the size of the resolved set. -/
theorem results_count_after_filter (w : World) (q : String) (cat br : Option String)
    (pmin pmax : Option ℚ) (s : St) (doc : ProductDoc) (s1 : St)
    (prices : List Entry) (s2 : St) (dbv : DB)
    (hs : s.store = some dbv)
    (hens : ensure_product_in_db w q br cat s = (doc, s1))
    (hfind : find_or_generate_prices w true doc s1 = (.ok prices, s2)) :
    srOf (search_products w true true q cat br pmin pmax s).2 =
      dbv.searchrecords ++
        [{ query := q, brand := br, category := cat, price_min := pmin,
           price_max := pmax,
           results_count := (prices.filter (fun e =>
             pmin.all (fun m => decide (m ≤ e.price)) &&
             pmax.all (fun mx => decide (e.price ≤ mx)))).length }] := by
  have hsr1 : srOf s1 = dbv.searchrecords := by
    have h := ensure_sr w q br cat s
    rw [hens] at h
    rw [h]
    simp [srOf, hs]
  have hsome1 : (s1.store).isSome = true := by
    have h := ensure_isSome w q br cat s
    rw [hens] at h
    rw [h, hs]
    rfl
  have hsr2 : srOf s2 = dbv.searchrecords := by
    have h := find_sr w true doc s1
    rw [hfind] at h
    rw [h, hsr1]
  have hsome2 : (s2.store).isSome = true := by
    have h := find_isSome w true doc s1
    rw [hfind] at h
    rw [h, hsome1]
  obtain ⟨dbv2, hdb2⟩ := Option.isSome_iff_exists.mp hsome2
  have hdbsr : dbv2.searchrecords = dbv.searchrecords := by
    have h := hsr2
    rw [srOf, hdb2] at h
    exact h
  simp only [search_products, hens, hfind]
  rw [price_filter_eq]
  simp [getIdOrFresh, freshOid, pyNow, create_searchrecord, srOf, hdb2, hdbsr]

/-- Witness for C10 on `DB0` with bounds `[1, 2]`: the resolved set is
nonempty but the recorded `results_count` is 0. -/
theorem results_count_after_filter_witness :
    S0.store = some DB0 ∧
    ensure_product_in_db W0 "x" none none S0 = (P0, S0) ∧
    find_or_generate_prices W0 true P0 S0 = (.ok [E0], S0) ∧
    ([E0] ≠ ([] : List Entry)) ∧
    (([E0].filter (fun e =>
        (some (1 : ℚ)).all (fun m => decide (m ≤ e.price)) &&
        (some (2 : ℚ)).all (fun mx => decide (e.price ≤ mx)))).length = 0) ∧
    srOf (search_products W0 true true "x" none none (some 1) (some 2) S0).2 =
      DB0.searchrecords ++
        [{ query := "x", brand := none, category := none, price_min := some 1,
           price_max := some 2,
           results_count := ([E0].filter (fun e =>
             (some (1 : ℚ)).all (fun m => decide (m ≤ e.price)) &&
             (some (2 : ℚ)).all (fun mx => decide (e.price ≤ mx)))).length }] :=
  ⟨rfl, by decide, rfl, by decide, by decide,
    results_count_after_filter W0 "x" none none (some 1) (some 2) S0 P0 S0 [E0] S0
      DB0 rfl (by decide) rfl⟩

theorem getD_mem {α : Type} (l : List α) (i : ℕ) (d : α) (h : i < l.length) :
    l.getD i d ∈ l := by
  induction l generalizing i with
  | nil => simp at h
  | cons a t ih =>
    cases i with
    | zero => simp [List.getD]
    | succ n =>
      have : (a :: t).getD (n + 1) d = t.getD n d := rfl
      rw [this]
      exact List.mem_cons_of_mem a (ih n (by simpa using h))

theorem pySample_length (w : World) :
    ∀ (k : ℕ) (l : List String) (s : St),
      ((pySample w k l s).1).length = min k l.length := by
  intro k
  induction k with
  | zero => intro l s; simp [pySample]
  | succ n ih =>
    intro l s
    by_cases hl : l.isEmpty
    · rw [List.isEmpty_iff] at hl
      subst hl
      simp [pySample]
    · have hlt : w.choice s.c % l.length < l.length := by
        apply Nat.mod_lt
        cases l with
        | nil => simp at hl
        | cons a t => simp
      have herase := List.length_eraseIdx_add_one hlt
      simp only [pySample, hl, if_neg]
      simp only [Bool.false_eq_true, if_false, List.length_cons, ih]
      omega

theorem pySample_mem (w : World) :
    ∀ (k : ℕ) (l : List String) (s : St),
      ∀ x ∈ (pySample w k l s).1, x ∈ l := by
  intro k
  induction k with
  | zero => intro l s x hx; simp [pySample] at hx
  | succ n ih =>
    intro l s x hx
    by_cases hl : l.isEmpty
    · simp [pySample, hl] at hx
    · simp only [pySample, hl, Bool.false_eq_true, if_false, List.mem_cons] at hx
      rcases hx with hx | hx
      · subst hx
        apply getD_mem
        apply Nat.mod_lt
        cases l with
        | nil => simp at hl
        | cons a t => simp
      · exact List.eraseIdx_subset _ _ (ih _ _ x hx)

theorem mkTrendEntry_platform (w : World) (base : ℚ) (nm p : String) (s : St) :
    (mkTrendEntry w base nm p s).1.platform = p := rfl

theorem trendPlatLoop_platforms (w : World) (base : ℚ) (nm : String) :
    ∀ (ps : List String) (s : St),
      ((trendPlatLoop w base nm ps s).1).map (fun e => e.platform) = ps := by
  intro ps
  induction ps with
  | nil => intro s; rfl
  | cons p rest ih => intro s; simp [trendPlatLoop, mkTrendEntry_platform, ih]

theorem trendPlatLoop_length (w : World) (base : ℚ) (nm : String)
    (ps : List String) (s : St) :
    ((trendPlatLoop w base nm ps s).1).length = ps.length := by
  have h := congrArg List.length (trendPlatLoop_platforms w base nm ps s)
  simpa using h

theorem foldl_minBy (xs : List TrendEntry) :
    ∀ x : TrendEntry,
      ((xs.foldl (fun acc y => if y.price < acc.price then y else acc) x).price ≤ x.price ∧
       ∀ y ∈ xs,
         (xs.foldl (fun acc y => if y.price < acc.price then y else acc) x).price ≤ y.price) := by
  induction xs with
  | nil => intro x; exact ⟨le_refl _, by simp⟩
  | cons y ys ih =>
    intro x
    simp only [List.foldl_cons]
    have hstep : (if y.price < x.price then y else x).price ≤ x.price ∧
        (if y.price < x.price then y else x).price ≤ y.price := by
      by_cases h : y.price < x.price
      · simp [h, le_of_lt h]
      · simp [h, le_of_not_lt h]
    obtain ⟨ih1, ih2⟩ := ih (if y.price < x.price then y else x)
    refine ⟨le_trans ih1 hstep.1, ?_⟩
    intro z hz
    rcases List.mem_cons.mp hz with hz | hz
    · subst hz; exact le_trans ih1 hstep.2
    · exact ih2 z hz

theorem minByPrice_le (l : List TrendEntry) (m : TrendEntry)
    (hm : minByPrice l = some m) : ∀ e ∈ l, m.price ≤ e.price := by
  cases l with
  | nil => simp [minByPrice] at hm
  | cons x xs =>
    simp only [minByPrice, Option.some.injEq] at hm
    subst hm
    intro e he
    rcases List.mem_cons.mp he with he | he
    · rw [he]; exact (foldl_minBy xs x).1
    · exact (foldl_minBy xs x).2 e he

theorem trendPlatLoop_platform_mem (w : World) (base : ℚ) (nm : String)
    (ps : List String) (s : St) :
    ∀ e ∈ (trendPlatLoop w base nm ps s).1, e.platform ∈ ps := by
  intro e he
  have h := trendPlatLoop_platforms w base nm ps s
  rw [← h]
  exact List.mem_map_of_mem _ he

theorem trendItem_props (w : World) (s : St) :
    ((trendItem w s).1.platforms.length ≤ 4) ∧
    (∀ e ∈ (trendItem w s).1.platforms, e.platform ∈ PLATFORMS) ∧
    (∃ low, (trendItem w s).1.lowest = some low ∧
      ∀ e ∈ (trendItem w s).1.platforms, low.price ≤ e.price) := by
  obtain ⟨nm, sA, h1⟩ : ∃ v s', pyChoice w TREND_NAMES "" s = (v, s') := ⟨_, _, rfl⟩
  obtain ⟨br, sB, h2⟩ : ∃ v s', pyChoice w TREND_BRANDS "" sA = (v, s') := ⟨_, _, rfl⟩
  obtain ⟨ct, sC, h3⟩ : ∃ v s', pyChoice w TREND_CATEGORIES "" sB = (v, s') := ⟨_, _, rfl⟩
  obtain ⟨bs, sD, h4⟩ : ∃ v s', pyUniform w 999 149999 sC = (v, s') := ⟨_, _, rfl⟩
  obtain ⟨pl, sE, h5⟩ : ∃ v s',
    pySample w (min 4 PLATFORMS.length) PLATFORMS sD = (v, s') := ⟨_, _, rfl⟩
  obtain ⟨pps, sF, h6⟩ : ∃ v s', trendPlatLoop w bs nm pl sE = (v, s') := ⟨_, _, rfl⟩
  have hl5 : (pySample w (min 4 PLATFORMS.length) PLATFORMS sD).1 = pl :=
    congrArg Prod.fst h5
  have hl6 : (trendPlatLoop w bs nm pl sE).1 = pps := congrArg Prod.fst h6
  have hplat : (trendItem w s).1.platforms = pps := by
    simp only [trendItem, h1, h2, h3, h4, h5, h6]
  have hlow : (trendItem w s).1.lowest = minByPrice pps := by
    simp only [trendItem, h1, h2, h3, h4, h5, h6]
  have hlen : pps.length = min (min 4 PLATFORMS.length) PLATFORMS.length := by
    rw [← hl6, trendPlatLoop_length, ← hl5, pySample_length]
  refine ⟨?_, ?_, ?_⟩
  · rw [hplat, hlen]
    decide
  · intro e he
    rw [hplat] at he
    rw [← hl6] at he
    have hp := trendPlatLoop_platform_mem w bs nm pl sE e he
    rw [← hl5] at hp
    exact pySample_mem w _ PLATFORMS sD e.platform hp
  · have hlen4 : pps.length = 4 := by
      rw [hlen]
      decide
    cases hpp : pps with
    | nil => rw [hpp] at hlen4; simp at hlen4
    | cons x xs =>
      rw [hplat, hlow, hpp]
      exact ⟨_, rfl, minByPrice_le (x :: xs) _ rfl⟩

theorem trendLoop_length (w : World) :
    ∀ (n : ℕ) (s : St), ((trendLoop w n s).1).length = n := by
  intro n
  induction n with
  | zero => intro s; rfl
  | succ m ih => intro s; simp [trendLoop, ih]

theorem trendLoop_mem_props (w : World) :
    ∀ (n : ℕ) (s : St), ∀ item ∈ (trendLoop w n s).1,
      (item.platforms.length ≤ 4) ∧
      (∀ e ∈ item.platforms, e.platform ∈ PLATFORMS) ∧
      (∃ low, item.lowest = some low ∧
        ∀ e ∈ item.platforms, low.price ≤ e.price) := by
  intro n
  induction n with
  | zero => intro s item hit; simp [trendLoop] at hit
  | succ m ih =>
    intro s item hit
    simp only [trendLoop, List.mem_cons] at hit
    rcases hit with hit | hit
    · rw [hit]
      exact trendItem_props w s
    · exact ih _ item hit

theorem trending_items (w : World) (limit : ℤ) (s : St) :
    ((trending_deals w limit s).1).items = (trendLoop w limit.toNat s).1 := rfl

/-- C8 (amended): for every non-negative `limit`, the trending endpoint
returns exactly `limit` items; each item's platform list has at most 4
entries (one price point each, no history, by construction of the trending
entry shape), each drawn from the fixed platform catalog; and each item's
`lowest` entry exists and its price is ≤ every platform price in the item. -/
theorem trending_spec (w : World) (limit : ℤ) (s : St) (hl : 0 ≤ limit) :
    ((((trending_deals w limit s).1).items.length : ℤ) = limit) ∧
    ∀ item ∈ ((trending_deals w limit s).1).items,
      (item.platforms.length ≤ 4) ∧
      (∀ e ∈ item.platforms, e.platform ∈ PLATFORMS) ∧
      (∃ low, item.lowest = some low ∧
        ∀ e ∈ item.platforms, low.price ≤ e.price) := by
  constructor
  · rw [trending_items, trendLoop_length]
    exact Int.toNat_of_nonneg hl
  · intro item hit
    rw [trending_items] at hit
    exact trendLoop_mem_props w limit.toNat s item hit

/-- Witness for the amended C8 at `limit = 1`. -/
theorem trending_spec_witness :
    (0 : ℤ) ≤ 1 ∧
    (((((trending_deals W0 1 S1).1).items.length : ℤ) = 1) ∧
     ∀ item ∈ ((trending_deals W0 1 S1).1).items,
       (item.platforms.length ≤ 4) ∧
       (∀ e ∈ item.platforms, e.platform ∈ PLATFORMS) ∧
       (∃ low, item.lowest = some low ∧
         ∀ e ∈ item.platforms, low.price ≤ e.price)) :=
  ⟨by decide, trending_spec W0 1 S1 (by decide)⟩

/-- C8 counterexample: at `limit = -1` the endpoint returns 0 items, not
`limit` items, refuting the claim for every requested limit. -/
theorem trending_neg_limit :
    ¬ ((((trending_deals W0 (-1) S1).1).items.length : ℤ) = -1) := by
  decide

end PriceCompare
